import Mathlib

/-!
Verification of the access-control and consistency layer of the Argo CD
application API server (package `server/application`).

The repository snapshot ships the package's test file
(`application_test.go`, here `src/unnamed/part_000`) but not the
implementation (`application.go` and its helpers in `util/argo`,
`util/rbac`, `util/cache`).  The definitions below are therefore shallow
models built from the natural-language specification, with the concrete
behaviour pinned down by the expectations of the in-repository tests
(`TestNoAppEnumeration`, `TestPatchResourcesRBAC`, `TestDeleteResourcesRBAC`,
`TestUpdateAppProject`, `TestGetCachedAppState`, `TestRollbackApp`,
`TestListAppWithProjects`, `TestListApps`,
`TestGetAmbiguousRevision_MultiSource`,
`TestServer_ResolveSourceRevisions_MultiSource`,
`TestServer_ResolveSourceRevisions_SingleSource`, `TestUpdateApp`,
`TestUpdateAppSpec`).  Each modelled definition says what is missing.
-/

namespace ArgoCD

/-- Effect of an RBAC policy rule: casbin-style `allow` or `deny`. -/
inductive Effect where
  | allow
  | deny
deriving DecidableEq, Repr

/-- Modelled from the spec: one row of the casbin policy document consumed by
the external policy engine (`p, subject, resource, action, object, effect`),
whose implementation (`util/rbac`) is not in the snapshot.  Patterns appear in
the `action` and `object` columns. -/
structure PolicyRule where
  subject : String
  resource : String
  action : String
  object : String
  effect : Effect
deriving DecidableEq, Repr

/-- Modelled from the spec: the glob matching used by the policy engine
(missing `util/rbac` / `util/glob`), restricted to the pattern shapes the
policies in this package use: a pattern ending in `*` matches any value
having the pattern minus the star as a prefix (so `*` matches everything and
`update/*` matches `update/g/k/ns/n` but not `update`); any other pattern
matches only itself. -/
def globMatch (pattern value : String) : Bool :=
  let p := pattern.toList
  match p.getLast? with
  | some '*' => List.isPrefixOf p.dropLast value.toList
  | _ => p == value.toList

/-- Modelled from the spec: whether one policy rule applies to a request.
The subject must be the principal exactly; resource, action and object are
matched as glob patterns. -/
def matchesRule (r : PolicyRule) (sub res act obj : String) : Bool :=
  r.subject == sub && globMatch r.resource res && globMatch r.action act &&
    globMatch r.object obj

/-- Modelled from the spec: the policy engine's decision
`Enforce(principal, resource, action, object) -> allow|deny` (missing
`util/rbac`): allowed iff some `allow` rule matches and no `deny` rule
matches (deny-override). -/
def enforce (policy : List PolicyRule) (sub res act obj : String) : Bool :=
  (policy.any fun r => r.effect == Effect.allow && matchesRule r sub res act obj) &&
    !(policy.any fun r => r.effect == Effect.deny && matchesRule r sub res act obj)

/-- Modelled from the spec: the error taxonomy surfaced by the API layer
(gRPC status errors produced by the missing `application.go`). -/
inductive APIError where
  | permissionDenied
  | notFound (msg : String)
  | invalidArgument (msg : String)
deriving DecidableEq, Repr

/-- The gRPC status code of an error. -/
def APIError.statusCode : APIError → String
  | .permissionDenied => "PermissionDenied"
  | .notFound _ => "NotFound"
  | .invalidArgument _ => "InvalidArgument"

/-- The description carried by an error.  `permissionDenied` carries the one
fixed description (`common.PermissionDeniedAPIError`). -/
def APIError.desc : APIError → String
  | .permissionDenied => "permission denied"
  | .notFound m => m
  | .invalidArgument m => m

/-- The full user-visible message, in the format the tests compare against. -/
def APIError.message (e : APIError) : String :=
  "rpc error: code = " ++ e.statusCode ++ " desc = " ++ e.desc

/-- Modelled from the spec: one desired source of an Application
(`v1alpha1.ApplicationSource`, type definitions not in the snapshot). -/
structure ApplicationSource where
  repoURL : String
  path : String
  chart : String
  targetRevision : String
deriving DecidableEq, Repr

/-- Modelled from the spec: the desired spec of an Application
(`v1alpha1.ApplicationSpec`): either one `source` or a list `sources`, plus
the project membership. -/
structure ApplicationSpec where
  source : Option ApplicationSource
  sources : List ApplicationSource
  project : String
deriving DecidableEq, Repr

/-- Whether the spec is multi-source (`HasMultipleSources`): the `sources`
list is non-empty. -/
def ApplicationSpec.hasMultipleSources (s : ApplicationSpec) : Bool :=
  !s.sources.isEmpty

/-- Modelled from the spec: one revision-history entry
(`v1alpha1.RevisionHistory`): an id plus the source(s) and revision(s)
recorded at sync time. -/
structure RevisionHistory where
  id : Int
  revision : String
  revisions : List String
  source : Option ApplicationSource
  sources : List ApplicationSource
deriving DecidableEq, Repr

/-- Whether a history entry is multi-source: its `sources` list is
non-empty. -/
def RevisionHistory.hasMultipleSources (h : RevisionHistory) : Bool :=
  !h.sources.isEmpty

/-- Modelled from the spec: the Sync payload of a one-shot Operation
(`v1alpha1.SyncOperation`). -/
structure SyncOperation where
  revision : String
  revisions : List String
  source : Option ApplicationSource
  sources : List ApplicationSource
deriving DecidableEq, Repr

/-- Modelled from the spec: the one-shot command slot on an Application
(`v1alpha1.Operation`); only the Sync shape matters here. -/
structure Operation where
  sync : Option SyncOperation
deriving DecidableEq, Repr

/-- Build a Sync-shaped Operation from a revision, a revision list, and the
source(s). -/
def syncShapedOp (rev : String) (revs : List String)
    (src : Option ApplicationSource) (srcs : List ApplicationSource) :
    Operation :=
  { sync := some
      { revision := rev, revisions := revs, source := src, sources := srcs } }

/-- Modelled from the spec: an Application object.  `nspace` stands for the
Kubernetes metadata namespace (`namespace` is a Lean keyword). -/
structure Application where
  name : String
  nspace : String
  spec : ApplicationSpec
  history : List RevisionHistory
  operation : Option Operation
deriving DecidableEq, Repr

/-- The RBAC object key of an Application: `project/name` (the spec's
`resourceKey="project/name"`). -/
def rbacName (a : Application) : String :=
  a.spec.project ++ "/" ++ a.name

/-- Modelled from the spec: the object store keyed by (namespace, name):
lookup returns the first Application with the requested identity. -/
def getApp (store : List Application) (ns name : String) : Option Application :=
  store.find? fun a => a.nspace == ns && a.name == name

/-- Modelled from the spec: storing an Application replaces any object with
the same (namespace, name) identity. -/
def putApp (store : List Application) (a : Application) : List Application :=
  a :: store.filter fun b => !(b.nspace == a.nspace && b.name == a.name)

/-- The read/write operations on a single Application that go through the
canonical authorization filter (the per-handler entry points of the missing
`application.go`). -/
inductive OpName where
  | get
  | getManifests
  | updateSpec
  | patch
  | delete
  | sync
  | rollback
  | terminateOperation
  | getResource
  | patchResource
  | deleteResource
  | resourceTree
  | revisionMetadata
  | managedResources
  | podLogs
  | listLinks
  | listResourceActions
  | runResourceActionV2
deriving DecidableEq, Repr

/-- The RBAC action each operation checks at its application-level
authorization step. -/
def OpName.action : OpName → String
  | .get => "get"
  | .getManifests => "get"
  | .updateSpec => "update"
  | .patch => "update"
  | .delete => "delete"
  | .sync => "sync"
  | .rollback => "sync"
  | .terminateOperation => "sync"
  | .getResource => "get"
  | .patchResource => "update"
  | .deleteResource => "delete"
  | .resourceTree => "get"
  | .revisionMetadata => "get"
  | .managedResources => "get"
  | .podLogs => "get"
  | .listLinks => "get"
  | .listResourceActions => "get"
  | .runResourceActionV2 => "action"

/-- Modelled from the spec: the canonical authorization decision
(`getAppEnforceRBAC` in the missing `application.go`), shared by every
single-Application entry point.  Without a project disambiguator, absence,
namespace-invisibility and policy denial all collapse to the one
`permissionDenied` error; with a project disambiguator, a genuinely absent
Application yields the standard Kubernetes not-found message, and a project
mismatch is reported as the same generic denial. -/
def getAppEnforceRBAC (store : List Application) (policy : List PolicyRule)
    (principal action ns name : String) (project : Option String) :
    Except APIError Application :=
  match getApp store ns name with
  | none =>
    match project with
    | some _ =>
      Except.error (APIError.notFound
        ("applications.argoproj.io \"" ++ name ++ "\" not found"))
    | none => Except.error APIError.permissionDenied
  | some a =>
    match project with
    | some p =>
      if a.spec.project == p then
        if enforce policy principal "applications" action (rbacName a) then
          Except.ok a
        else
          Except.error APIError.permissionDenied
      else
        Except.error APIError.permissionDenied
    | none =>
      if enforce policy principal "applications" action (rbacName a) then
        Except.ok a
      else
        Except.error APIError.permissionDenied

/-- Modelled from the spec: the authorization step of each per-operation
handler is exactly the canonical decision applied to that operation's
action. -/
def authorizeOp (op : OpName) (store : List Application)
    (policy : List PolicyRule) (principal ns name : String)
    (project : Option String) : Except APIError Application :=
  getAppEnforceRBAC store policy principal op.action ns name project

/-- Modelled from the spec: the outcome of one invocation of the caller's
cache-`read` callback: success, the distinguished cache-miss condition
(`cache.ErrCacheMiss`), or any other error. -/
inductive ReadResult where
  | ok
  | cacheMiss
  | err (msg : String)
deriving DecidableEq, Repr

/-- Modelled from the spec: `getCachedAppState` (`GetOrRefresh`, missing
`application.go` / `util/cache`): invoke `read`; if it reports the
distinguished cache-miss, write exactly one refresh-request marker onto the
Application, await the confirmed refresh, and retry `read` exactly once,
returning that second outcome; any other first outcome is returned
immediately with no refresh.  The result carries the final outcome, the
number of `read` invocations, and the number of refresh-request writes;
`read` receives its invocation index. -/
def getCachedAppState (read : Nat → ReadResult) : ReadResult × Nat × Nat :=
  match read 0 with
  | ReadResult.cacheMiss => (read 1, 2, 1)
  | r => (r, 1, 0)

/-- The source an index picks inside a history entry: positional for a
multi-source entry, the lone source at index 0 for a single-source entry. -/
def RevisionHistory.sourceAt (h : RevisionHistory) (i : Nat) :
    Option ApplicationSource :=
  if h.hasMultipleSources then h.sources[i]?
  else if i == 0 then h.source else none

/-- The revision an index picks inside a history entry. -/
def RevisionHistory.revisionAt (h : RevisionHistory) (i : Nat) :
    Option String :=
  if h.hasMultipleSources then h.revisions[i]?
  else if i == 0 then some h.revision else none

/-- Modelled from the spec: the `Rollback` handler (missing
`application.go`): authorize `sync` through the canonical filter, look up
the requested history entry by numeric id, require the entry's source
cardinality to match the live spec's unless an explicit source index is
supplied, and set a Sync-shaped pending Operation whose source(s) and
revision(s) come from the history entry rather than the live spec. -/
def rollbackApp (store : List Application) (policy : List PolicyRule)
    (principal ns name : String) (project : Option String) (id : Int)
    (sourceIndex : Option Nat) : Except APIError Application :=
  match getAppEnforceRBAC store policy principal "sync" ns name project with
  | Except.error e => Except.error e
  | Except.ok a =>
    match a.history.find? (fun h => h.id == id) with
    | none =>
      Except.error (APIError.invalidArgument
        ("application " ++ name ++ " does not have deployment with id " ++
          toString id))
    | some entry =>
      if entry.hasMultipleSources == a.spec.hasMultipleSources then
        Except.ok
          { a with operation := some (syncShapedOp entry.revision
              entry.revisions entry.source entry.sources) }
      else
        match sourceIndex with
        | none =>
          Except.error (APIError.invalidArgument
            "source cardinality of the rollback history entry does not match the application")
        | some i =>
          match entry.sourceAt i with
          | none =>
            Except.error (APIError.invalidArgument
              "source index out of range for the rollback history entry")
          | some src =>
            Except.ok
              { a with operation := some (syncShapedOp
                  ((entry.revisionAt i).getD "") [] (some src) []) }

/-- Modelled from the spec: the query fields of a bulk `List` call relevant
here — an optional name filter and the two project-set filter fields of
`ApplicationQuery` (the repeated `project` field and the repeated `projects`
field); a field counts as supplied when non-empty. -/
structure ApplicationQuery where
  name : Option String
  project : List String
  projects : List String
deriving DecidableEq, Repr

/-- Modelled from the spec and `TestListAppWithProjects`: the project filter
set of a query (`getProjectsFromApplicationQuery` in the missing
`application.go`): when the `project` field is supplied it is used,
otherwise the `projects` field. -/
def getProjectsFromApplicationQuery (q : ApplicationQuery) : List String :=
  if q.project.isEmpty then q.projects else q.project

/-- The sort/identity key of an Application in listings: (name, namespace). -/
def appKey (a : Application) : String × String :=
  (a.name, a.nspace)

/-- The listing order: by name, with the namespace as tie-break so that the
order is total. -/
def appLe (a b : Application) : Prop :=
  a.name < b.name ∨ (a.name = b.name ∧ a.nspace ≤ b.nspace)

instance : DecidableRel appLe := fun a b => by
  unfold appLe
  infer_instance

/-- Modelled from the spec: the per-Application predicate of the bulk `List`
filter (missing `application.go`): namespace eligibility (control namespace
or an enabled namespace), the optional name filter, the project-set filter
(preferring the `project` field), and the policy-engine allow for `get`. -/
def listFilter (policy : List PolicyRule) (principal controlNS : String)
    (enabledNS : List String) (q : ApplicationQuery) (a : Application) :
    Bool :=
  (a.nspace == controlNS || enabledNS.contains a.nspace) &&
    (match q.name with
     | some n => a.name == n
     | none => true) &&
    (let projs := getProjectsFromApplicationQuery q
     projs.isEmpty || projs.contains a.spec.project) &&
    enforce policy principal "applications" "get" (rbacName a)

/-- Modelled from the spec: the bulk `List` handler (missing
`application.go`): filter the store snapshot by the per-Application
predicate and return the survivors deterministically sorted. -/
def listApps (store : List Application) (policy : List PolicyRule)
    (principal controlNS : String) (enabledNS : List String)
    (q : ApplicationQuery) : List Application :=
  List.insertionSort appLe
    (store.filter (listFilter policy principal controlNS enabledNS q))

/-- A sample single-source Application mirroring the tests' `newTestApp`
fixture (`test-app` in project `default`, control namespace `argocd`). -/
def sampleSource : ApplicationSource :=
  { repoURL := "https://git.com/repo.git", path := ".", chart := ""
    targetRevision := "HEAD" }

/-- The sample Application used as a concrete witness input. -/
def sampleApp : Application :=
  { name := "test-app", nspace := "argocd"
    spec := { source := some sampleSource, sources := [], project := "default" }
    history := [{ id := 1, revision := "abc", revisions := []
                  source := some sampleSource, sources := [] }]
    operation := none }

/-- Modelled from the spec: the app-spec normalization performed by the
missing validation helper (`validateAndNormalizeApp`): an empty project
field is rewritten to the default project name `default`. -/
def normalizeProject (p : String) : String :=
  if p == "" then "default" else p

/-- Replace an Application's project. -/
def setProject (a : Application) (p : String) : Application :=
  { a with spec := { a.spec with project := p } }

/-- Modelled from the spec: the shared update path of the missing
`application.go` (`validateAndUpdateApp`), given the already-authorized
existing object: the incoming project is normalized; keeping the project
needs nothing further, while changing it additionally requires `update` and
`create` permission under the new project identity, otherwise the call is
denied; on success the stored object carries the new spec. -/
def updateAppCore (store : List Application) (policy : List PolicyRule)
    (principal : String) (existing reqApp : Application) :
    Except APIError (Application × List Application) :=
  let newProj := normalizeProject reqApp.spec.project
  let a' := setProject reqApp newProj
  if newProj == existing.spec.project then
    Except.ok (a', putApp store a')
  else if enforce policy principal "applications" "update"
            (newProj ++ "/" ++ reqApp.name) &&
          enforce policy principal "applications" "create"
            (newProj ++ "/" ++ reqApp.name) then
    Except.ok (a', putApp store a')
  else
    Except.error APIError.permissionDenied

/-- Modelled from the spec: the `Update` handler — authorize `update` under
the object's current (old) project identity through the canonical filter,
then apply the shared update path. -/
def updateApp (store : List Application) (policy : List PolicyRule)
    (principal : String) (project : Option String) (reqApp : Application) :
    Except APIError (Application × List Application) :=
  match getAppEnforceRBAC store policy principal "update" reqApp.nspace
      reqApp.name project with
  | Except.error e => Except.error e
  | Except.ok existing => updateAppCore store policy principal existing reqApp

/-- Modelled from the spec: the `UpdateSpec` handler — authorize `update`
under the current identity, replace the spec, run the shared update path,
and return the stored spec. -/
def updateAppSpec (store : List Application) (policy : List PolicyRule)
    (principal : String) (project : Option String) (ns name : String)
    (spec : ApplicationSpec) :
    Except APIError (ApplicationSpec × List Application) :=
  match getAppEnforceRBAC store policy principal "update" ns name project with
  | Except.error e => Except.error e
  | Except.ok a =>
    match updateAppCore store policy principal a { a with spec := spec } with
    | Except.error e => Except.error e
    | Except.ok (a', st') => Except.ok (a'.spec, st')

end ArgoCD

namespace ArgoCD

/-- Storing an Application and looking it up under its own identity finds
exactly the stored object. -/
theorem getApp_putApp (store : List Application) (a : Application) :
    getApp (putApp store a) a.nspace a.name = some a := by
  simp [getApp, putApp, List.find?]

/-- A successful store lookup returns an object carrying the requested
identity. -/
theorem getApp_some_ids {store : List Application} {ns name : String}
    {a : Application} (h : getApp store ns name = some a) :
    a.nspace = ns ∧ a.name = name := by
  unfold getApp at h
  have hp := List.find?_some h
  simp only [Bool.and_eq_true, beq_iff_eq] at hp
  exact hp

/-- The listing order is total. -/
theorem appLe_total : ∀ a b : Application, appLe a b ∨ appLe b a := by
  intro a b
  rcases lt_trichotomy a.name b.name with h | h | h
  · exact Or.inl (Or.inl h)
  · rcases le_total a.nspace b.nspace with h2 | h2
    · exact Or.inl (Or.inr ⟨h, h2⟩)
    · exact Or.inr (Or.inr ⟨h.symm, h2⟩)
  · exact Or.inr (Or.inl h)

instance : IsTotal Application appLe := ⟨appLe_total⟩

/-- The listing order is transitive. -/
theorem appLe_trans :
    ∀ a b c : Application, appLe a b → appLe b c → appLe a c := by
  intro a b c hab hbc
  rcases hab with h1 | ⟨h1, h1'⟩ <;> rcases hbc with h2 | ⟨h2, h2'⟩
  · exact Or.inl (lt_trans h1 h2)
  · exact Or.inl (h2 ▸ h1)
  · exact Or.inl (h1 ▸ h2)
  · exact Or.inr ⟨h1.trans h2, le_trans h1' h2'⟩

instance : IsTrans Application appLe := ⟨appLe_trans⟩

/-- Two Applications below each other in the listing order share their
(name, namespace) key. -/
theorem appLe_antisymm_key {a b : Application} (h1 : appLe a b)
    (h2 : appLe b a) : appKey a = appKey b := by
  rcases h1 with h1 | ⟨h1, h1'⟩
  · rcases h2 with h2 | ⟨h2, h2'⟩
    · exact absurd (lt_trans h1 h2) (lt_irrefl _)
    · rw [h2] at h1
      exact absurd h1 (lt_irrefl _)
  · rcases h2 with h2 | ⟨h2, h2'⟩
    · rw [h1] at h2
      exact absurd h2 (lt_irrefl _)
    · unfold appKey
      rw [h1, le_antisymm h1' h2']

/-- Two lists that are permutations of each other, both sorted in the
listing order, and whose (name, namespace) keys are distinct, are equal. -/
theorem sorted_perm_nodupKeys_eq :
    ∀ l₁ l₂ : List Application, l₁.Perm l₂ → l₁.Sorted appLe →
      l₂.Sorted appLe → (l₁.map appKey).Nodup → l₁ = l₂ := by
  intro l₁
  induction l₁ with
  | nil =>
    intro l₂ hp _ _ _
    exact hp.symm.eq_nil.symm
  | cons x t ih =>
    intro l₂ hp hs₁ hs₂ hnd
    cases l₂ with
    | nil => exact absurd hp.eq_nil (by simp)
    | cons y t₂ =>
      by_cases hxy : x = y
      · subst hxy
        have ht := ih t₂ hp.cons_inv hs₁.of_cons hs₂.of_cons
          (by
            simp only [List.map_cons, List.nodup_cons] at hnd
            exact hnd.2)
        rw [ht]
      · exfalso
        have hx2 : x ∈ t₂ := by
          have hmem := hp.subset (List.mem_cons_self x t)
          rcases List.mem_cons.mp hmem with h | h
          · exact absurd h hxy
          · exact h
        have hy1 : y ∈ t := by
          have hmem := hp.symm.subset (List.mem_cons_self y t₂)
          rcases List.mem_cons.mp hmem with h | h
          · exact absurd h.symm hxy
          · exact h
        have h1 : appLe x y := List.rel_of_sorted_cons hs₁ y hy1
        have h2 : appLe y x := List.rel_of_sorted_cons hs₂ x hx2
        have hk : appKey x = appKey y := appLe_antisymm_key h1 h2
        have hmemk : appKey y ∈ t.map appKey := List.mem_map_of_mem appKey hy1
        rw [← hk] at hmemk
        have hn : appKey x ∉ t.map appKey := by
          simp only [List.map_cons, List.nodup_cons] at hnd
          exact hnd.1
        exact absurd hmemk hn

/-- A successful canonical authorization implies the Application was found in
the store under the requested identity. -/
theorem getAppEnforceRBAC_ok {store : List Application}
    {policy : List PolicyRule} {principal action ns name : String}
    {project : Option String} {a : Application}
    (h : getAppEnforceRBAC store policy principal action ns name project =
      Except.ok a) :
    getApp store ns name = some a := by
  unfold getAppEnforceRBAC at h
  cases hfind : getApp store ns name with
  | none =>
    rw [hfind] at h
    cases project <;> simp at h
  | some b =>
    rw [hfind] at h
    cases project with
    | none =>
      dsimp only at h
      by_cases he : enforce policy principal "applications" action (rbacName b)
          = true
      · rw [if_pos he] at h
        injection h with h2
        rw [h2]
      · rw [if_neg he] at h
        cases h
    | some p =>
      dsimp only at h
      by_cases hp2 : (b.spec.project == p) = true
      · rw [if_pos hp2] at h
        by_cases he : enforce policy principal "applications" action
            (rbacName b) = true
        · rw [if_pos he] at h
          injection h with h2
          rw [h2]
        · rw [if_neg he] at h
          cases h
      · rw [if_neg hp2] at h
        cases h

/-- C1: without a project disambiguator, every single-Application operation
returns the very same `permissionDenied` error whether the Application is
absent or present-but-denied: the two results are equal (hence identical in
message and status code), and both are the generic permission-denied
error. -/
theorem noAppEnumeration_identical_denial
    (op : OpName) (storeAbsent storePresent : List Application)
    (policy : List PolicyRule) (principal ns name : String) (a : Application)
    (habs : getApp storeAbsent ns name = none)
    (hpres : getApp storePresent ns name = some a)
    (hdeny : enforce policy principal "applications" op.action (rbacName a) = false) :
    authorizeOp op storeAbsent policy principal ns name none =
      authorizeOp op storePresent policy principal ns name none ∧
    authorizeOp op storeAbsent policy principal ns name none =
      Except.error APIError.permissionDenied := by
  unfold authorizeOp getAppEnforceRBAC
  rw [habs, hpres]
  simp [hdeny]

/-- Witness for C1 at a concrete input: the empty store versus a store
holding `sampleApp`, a principal granted nothing, the `Get` operation. -/
theorem noAppEnumeration_identical_denial_witness :
    authorizeOp OpName.get [] [] "nobody" "argocd" "test-app" none =
      authorizeOp OpName.get [sampleApp] [] "nobody" "argocd" "test-app" none ∧
    authorizeOp OpName.get [] [] "nobody" "argocd" "test-app" none =
      Except.error APIError.permissionDenied :=
  noAppEnumeration_identical_denial OpName.get [] [sampleApp] [] "nobody"
    "argocd" "test-app" sampleApp (by decide) (by decide) (by decide)

/-- C2: with a project disambiguator supplied and the Application genuinely
absent, every operation returns the standard Kubernetes NotFound error whose
message names the missing Application, and that error differs from the
generic permission-denied signal. -/
theorem projectDisambiguated_absent_notFound
    (op : OpName) (store : List Application) (policy : List PolicyRule)
    (principal ns name p : String)
    (habs : getApp store ns name = none) :
    authorizeOp op store policy principal ns name (some p) =
      Except.error (APIError.notFound
        ("applications.argoproj.io \"" ++ name ++ "\" not found")) ∧
    (APIError.notFound
        ("applications.argoproj.io \"" ++ name ++ "\" not found")).message =
      "rpc error: code = NotFound desc = applications.argoproj.io \"" ++
        name ++ "\" not found" ∧
    APIError.notFound ("applications.argoproj.io \"" ++ name ++ "\" not found") ≠
      APIError.permissionDenied := by
  refine ⟨?_, rfl, by simp⟩
  unfold authorizeOp getAppEnforceRBAC
  rw [habs]

/-- Modelled from the spec: the fine-grained RBAC action string
`action/group/kind/namespace/name` built for live-resource mutations. -/
def subresourceAction (action group kind rns rname : String) : String :=
  action ++ "/" ++ group ++ "/" ++ kind ++ "/" ++ rns ++ "/" ++ rname

/-- Modelled from the spec and the expectations of `TestPatchResourcesRBAC` /
`TestDeleteResourcesRBAC`: the sub-resource authorization decision of the
missing `getAppLiveResource` (`DeleteResource` / `PatchResource` handlers).
With fine-grained inheritance disabled (config
`server.rbac.disableApplicationFineGrainedRBACInheritance` true), only the
fine-grained `action/group/kind/ns/name` decision counts; with inheritance
enabled, either the fine-grained decision or the blanket application-level
decision suffices. -/
def enforceSubresource (policy : List PolicyRule) (principal : String)
    (inheritanceEnabled : Bool)
    (action group kind rns rname obj : String) : Bool :=
  let fine := subresourceAction action group kind rns rname
  if inheritanceEnabled then
    enforce policy principal "applications" fine obj ||
      enforce policy principal "applications" action obj
  else
    enforce policy principal "applications" fine obj

/-- An allow policy row for `test-user` on `default/test-app`, as set by the
RBAC tests. -/
def pAllow (act : String) : PolicyRule :=
  { subject := "test-user", resource := "applications", action := act
    object := "default/test-app", effect := Effect.allow }

/-- A deny policy row for `test-user` on `default/test-app`, as set by the
RBAC tests. -/
def pDeny (act : String) : PolicyRule :=
  { subject := "test-user", resource := "applications", action := act
    object := "default/test-app", effect := Effect.deny }

/-- The decision for the sub-resource patch request of
`TestPatchResourcesRBAC` (group `fake.io`, kind `PodTest`, resource
`my-pod-test` in `fake-ns`, on app `default/test-app`) under a given policy
and inheritance setting. -/
def patchReqDecision (policy : List PolicyRule) (inh : Bool) : Bool :=
  enforceSubresource policy "test-user" inh "update" "fake.io" "PodTest"
    "fake-ns" "my-pod-test" "default/test-app"

/-- Counterexample to C3: with fine-grained inheritance enabled, (1) the
policy `update allow` + `update/* deny` still permits the sub-resource
patch, so the claimed unconditional denial fails; and (2) the inverse policy
`update deny` + `update/* allow` also permits it, so the application-level
deny does not block the sub-resource allow when inheritance is enabled —
exactly what `TestPatchResourcesRBAC`'s cases "patch with application
permission but deny subresource with inheritance" and "patch with
subresource but deny applications with inheritance" assert. -/
theorem subresourceRBAC_counterexample :
    patchReqDecision [pAllow "update", pDeny "update/*"] true = true ∧
    patchReqDecision [pDeny "update", pAllow "update/*"] true = true := by
  decide

/-- C3 as amended: the eight decision outcomes pinned by
`TestPatchResourcesRBAC` — application-level `update` alone grants the
sub-resource patch only under inheritance; `update/*` deny blocks only when
inheritance is disabled; the application-level deny never blocks a
sub-resource allow; a more specific `update/fake.io/PodTest/*` deny
overrides the `update/*` allow — together with the general deny-override
law: a deny rule matching the requested action always overrides any allow. -/
theorem subresourceRBAC_amended :
    patchReqDecision [pAllow "update"] false = false ∧
    patchReqDecision [pAllow "update"] true = true ∧
    patchReqDecision [pAllow "update", pDeny "update/*"] false = false ∧
    patchReqDecision [pAllow "update", pDeny "update/*"] true = true ∧
    patchReqDecision [pAllow "update/*"] false = true ∧
    patchReqDecision [pDeny "update", pAllow "update/*"] false = true ∧
    patchReqDecision [pDeny "update", pAllow "update/*"] true = true ∧
    patchReqDecision [pAllow "update/*", pDeny "update/fake.io/PodTest/*"] false
        = false ∧
    ∀ (policy : List PolicyRule) (principal act obj : String) (r : PolicyRule),
      r ∈ policy → r.effect = Effect.deny →
      matchesRule r principal "applications" act obj = true →
      enforce policy principal "applications" act obj = false := by
  refine ⟨by decide, by decide, by decide, by decide, by decide, by decide,
    by decide, by decide, ?_⟩
  intro policy principal act obj r hmem heff hmatch
  unfold enforce
  have hdeny : (policy.any fun r =>
      r.effect == Effect.deny && matchesRule r principal "applications" act obj)
      = true := by
    rw [List.any_eq_true]
    exact ⟨r, hmem, by rw [heff, hmatch]; rfl⟩
  rw [hdeny]
  simp

/-- Witness for C3's amended theorem: its deny-override component applied at
a concrete input — the more specific `update/fake.io/PodTest/*` deny beats
the `update/*` allow for the fine-grained patch action. -/
theorem subresourceRBAC_amended_witness :
    enforce [pAllow "update/*", pDeny "update/fake.io/PodTest/*"] "test-user"
      "applications"
      (subresourceAction "update" "fake.io" "PodTest" "fake-ns" "my-pod-test")
      "default/test-app" = false :=
  subresourceRBAC_amended.2.2.2.2.2.2.2.2
    [pAllow "update/*", pDeny "update/fake.io/PodTest/*"] "test-user"
    (subresourceAction "update" "fake.io" "PodTest" "fake-ns" "my-pod-test")
    "default/test-app" (pDeny "update/fake.io/PodTest/*")
    (by decide) rfl (by decide)

/-- Witness for C2 at the tests' concrete input: name `doest-not-exist`,
project disambiguator `test`, reproducing the exact message asserted by
`TestNoAppEnumeration`. -/
theorem projectDisambiguated_absent_notFound_witness :
    authorizeOp OpName.get [sampleApp] [] "admin" "argocd" "doest-not-exist"
        (some "test") =
      Except.error (APIError.notFound
        ("applications.argoproj.io \"doest-not-exist\" not found")) ∧
    (APIError.notFound
        ("applications.argoproj.io \"doest-not-exist\" not found")).message =
      "rpc error: code = NotFound desc = applications.argoproj.io \"doest-not-exist\" not found" ∧
    APIError.notFound "applications.argoproj.io \"doest-not-exist\" not found" ≠
      APIError.permissionDenied := by
  have h := projectDisambiguated_absent_notFound OpName.get [sampleApp] []
    "admin" "argocd" "doest-not-exist" "test" (by decide)
  exact h

/-- C4: an `Update` that changes the Application's project succeeds exactly
when the principal may `update` under the old project identity, `update`
under the new one, and `create` under the new one; if any of the three
grants is missing the call is denied with the permission-denied error, and
when all are present the returned and the stored object carry the new
project. -/
theorem updateApp_projectChange_rbac
    (store : List Application) (policy : List PolicyRule)
    (principal : String) (reqApp existing : Application)
    (hfind : getApp store reqApp.nspace reqApp.name = some existing)
    (hchange : normalizeProject reqApp.spec.project ≠ existing.spec.project) :
    ((enforce policy principal "applications" "update" (rbacName existing)
          = false ∨
      enforce policy principal "applications" "update"
          (normalizeProject reqApp.spec.project ++ "/" ++ reqApp.name)
          = false ∨
      enforce policy principal "applications" "create"
          (normalizeProject reqApp.spec.project ++ "/" ++ reqApp.name)
          = false) →
      updateApp store policy principal none reqApp =
        Except.error APIError.permissionDenied) ∧
    (enforce policy principal "applications" "update" (rbacName existing)
        = true →
     enforce policy principal "applications" "update"
        (normalizeProject reqApp.spec.project ++ "/" ++ reqApp.name) = true →
     enforce policy principal "applications" "create"
        (normalizeProject reqApp.spec.project ++ "/" ++ reqApp.name) = true →
      updateApp store policy principal none reqApp =
        Except.ok
          (setProject reqApp (normalizeProject reqApp.spec.project),
           putApp store
             (setProject reqApp (normalizeProject reqApp.spec.project))) ∧
      (setProject reqApp (normalizeProject reqApp.spec.project)).spec.project
        = normalizeProject reqApp.spec.project ∧
      getApp
          (putApp store
            (setProject reqApp (normalizeProject reqApp.spec.project)))
          reqApp.nspace reqApp.name =
        some (setProject reqApp (normalizeProject reqApp.spec.project))) := by
  have hbe : (normalizeProject reqApp.spec.project == existing.spec.project)
      = false := by
    simpa using hchange
  constructor
  · intro h
    unfold updateApp getAppEnforceRBAC
    rw [hfind]
    cases hg1 : enforce policy principal "applications" "update"
        (rbacName existing) with
    | false => simp [hg1]
    | true =>
      rcases h with h | h | h
      · rw [hg1] at h; cases h
      · simp [hg1, updateAppCore, hbe, h]
      · simp [hg1, updateAppCore, hbe, h]
  · intro h1 h2 h3
    unfold updateApp getAppEnforceRBAC
    rw [hfind]
    refine ⟨by simp [h1, updateAppCore, hbe, h2, h3], rfl, ?_⟩
    exact getApp_putApp store
      (setProject reqApp (normalizeProject reqApp.spec.project))

/-- The three-grant policy of `TestUpdateAppProject`'s passing case. -/
def projectChangePolicy : List PolicyRule :=
  [{ subject := "admin", resource := "applications", action := "update"
     object := "default/test-app", effect := Effect.allow },
   { subject := "admin", resource := "applications", action := "update"
     object := "my-proj/test-app", effect := Effect.allow },
   { subject := "admin", resource := "applications", action := "create"
     object := "my-proj/test-app", effect := Effect.allow }]

/-- Witness for C4 at the tests' concrete input: moving `test-app` from
project `default` to `my-proj` with all three grants present succeeds and
stores the new project. -/
theorem updateApp_projectChange_rbac_witness :
    updateApp [sampleApp] projectChangePolicy "admin" none
        (setProject sampleApp "my-proj") =
      Except.ok
        (setProject (setProject sampleApp "my-proj")
           (normalizeProject (setProject sampleApp "my-proj").spec.project),
         putApp [sampleApp]
           (setProject (setProject sampleApp "my-proj")
             (normalizeProject (setProject sampleApp "my-proj").spec.project))) ∧
    (setProject (setProject sampleApp "my-proj")
        (normalizeProject (setProject sampleApp "my-proj").spec.project)).spec.project
      = normalizeProject (setProject sampleApp "my-proj").spec.project ∧
    getApp
        (putApp [sampleApp]
          (setProject (setProject sampleApp "my-proj")
            (normalizeProject (setProject sampleApp "my-proj").spec.project)))
        (setProject sampleApp "my-proj").nspace
        (setProject sampleApp "my-proj").name =
      some (setProject (setProject sampleApp "my-proj")
        (normalizeProject (setProject sampleApp "my-proj").spec.project)) :=
  (updateApp_projectChange_rbac [sampleApp] projectChangePolicy "admin"
      (setProject sampleApp "my-proj") sampleApp (by decide) (by decide)).2
    (by decide) (by decide) (by decide)

/-- C10: whenever `Update` (respectively `UpdateSpec`) succeeds on a request
whose project field is the empty string, the returned object (respectively
returned spec) carries project `default`, and the Application subsequently
stored under the request's identity also carries project `default` — so no
persisted Application has an empty project. -/
theorem update_normalizes_empty_project :
    (∀ (store : List Application) (policy : List PolicyRule)
       (principal : String) (project : Option String) (reqApp a' : Application)
       (st' : List Application),
       reqApp.spec.project = "" →
       updateApp store policy principal project reqApp =
         Except.ok (a', st') →
       a'.spec.project = "default" ∧
       getApp st' reqApp.nspace reqApp.name = some a') ∧
    (∀ (store : List Application) (policy : List PolicyRule)
       (principal : String) (project : Option String) (ns name : String)
       (spec spec' : ApplicationSpec) (st' : List Application),
       spec.project = "" →
       updateAppSpec store policy principal project ns name spec =
         Except.ok (spec', st') →
       spec'.project = "default" ∧
       ∃ a', getApp st' ns name = some a' ∧ a'.spec.project = "default") := by
  constructor
  · intro store policy principal project reqApp a' st' hp hok
    unfold updateApp at hok
    cases hres : getAppEnforceRBAC store policy principal "update"
        reqApp.nspace reqApp.name project with
    | error e => rw [hres] at hok; cases hok
    | ok existing =>
      rw [hres] at hok
      unfold updateAppCore at hok
      rw [hp] at hok
      simp only [normalizeProject, beq_self_eq_true, if_true] at hok
      split at hok <;>
        [skip; split at hok] <;>
        first
          | (cases hok
             refine ⟨rfl, ?_⟩
             exact getApp_putApp store (setProject reqApp "default"))
          | cases hok
  · intro store policy principal project ns name spec spec' st' hp hok
    unfold updateAppSpec at hok
    cases hres : getAppEnforceRBAC store policy principal "update" ns name
        project with
    | error e => rw [hres] at hok; cases hok
    | ok a =>
      rw [hres] at hok
      dsimp only at hok
      have hids : a.nspace = ns ∧ a.name = name :=
        getApp_some_ids (getAppEnforceRBAC_ok hres)
      cases hcore : updateAppCore store policy principal a
          { a with spec := spec } with
      | error e => rw [hcore] at hok; cases hok
      | ok pair =>
        rw [hcore] at hok
        dsimp only at hok
        cases hok
        unfold updateAppCore at hcore
        rw [hp] at hcore
        simp only [normalizeProject, beq_self_eq_true, if_true] at hcore
        split at hcore <;> [skip; split at hcore] <;>
          first
            | (cases hcore
               refine ⟨rfl, setProject { a with spec := spec } "default",
                 ?_, rfl⟩
               rw [← hids.1, ← hids.2]
               exact getApp_putApp store
                 (setProject { a with spec := spec } "default"))
            | cases hcore

/-- C5: a `read` that misses the cache once and then succeeds makes
`getCachedAppState` perform exactly one refresh-request write and return
success after exactly two `read` invocations; a `read` that returns any
non-cache-miss error is invoked exactly once, triggers no refresh write, and
its error is returned unmodified. -/
theorem getCachedAppState_missRetry_and_errPassthrough :
    (∀ read : Nat → ReadResult, read 0 = ReadResult.cacheMiss →
       read 1 = ReadResult.ok →
       getCachedAppState read = (ReadResult.ok, 2, 1)) ∧
    (∀ (read : Nat → ReadResult) (msg : String),
       read 0 = ReadResult.err msg →
       getCachedAppState read = (ReadResult.err msg, 1, 0)) := by
  constructor
  · intro read h0 h1
    unfold getCachedAppState
    rw [h0, h1]
  · intro read msg h0
    unfold getCachedAppState
    rw [h0]

/-- The tests' cache-missing-then-succeeding `read` callback. -/
def missThenOkRead : Nat → ReadResult :=
  fun n => if n == 0 then ReadResult.cacheMiss else ReadResult.ok

/-- The tests' always-failing `read` callback (`random error`). -/
def randomErrorRead : Nat → ReadResult :=
  fun _ => ReadResult.err "random error"

/-- Witness for C5 at the concrete callbacks of `TestGetCachedAppState`. -/
theorem getCachedAppState_missRetry_and_errPassthrough_witness :
    getCachedAppState missThenOkRead = (ReadResult.ok, 2, 1) ∧
    getCachedAppState randomErrorRead = (ReadResult.err "random error", 1, 0) :=
  ⟨getCachedAppState_missRetry_and_errPassthrough.1 missThenOkRead rfl rfl,
   getCachedAppState_missRetry_and_errPassthrough.2 randomErrorRead
     "random error" rfl⟩

/-- C6: once `Rollback` is authorized and the history entry is found, a
source-cardinality mismatch with no source index fails with the error naming
the cardinality mismatch; matching cardinality succeeds with a Sync-shaped
pending Operation carrying the history entry's source(s) and revision(s)
rather than the live spec's; and a mismatch with a valid index succeeds with
the entry's source at that index. -/
theorem rollbackApp_cardinality
    (store : List Application) (policy : List PolicyRule)
    (principal ns name : String) (project : Option String) (id : Int)
    (a : Application) (entry : RevisionHistory)
    (hauth : getAppEnforceRBAC store policy principal "sync" ns name project
      = Except.ok a)
    (hentry : a.history.find? (fun h => h.id == id) = some entry) :
    ((entry.hasMultipleSources == a.spec.hasMultipleSources) = false →
      rollbackApp store policy principal ns name project id none =
        Except.error (APIError.invalidArgument
          "source cardinality of the rollback history entry does not match the application")) ∧
    ((entry.hasMultipleSources == a.spec.hasMultipleSources) = true →
     ∀ sourceIndex : Option Nat,
      rollbackApp store policy principal ns name project id sourceIndex =
        Except.ok
          { a with operation := some (syncShapedOp entry.revision
              entry.revisions entry.source entry.sources) }) ∧
    ((entry.hasMultipleSources == a.spec.hasMultipleSources) = false →
     ∀ (i : Nat) (src : ApplicationSource), entry.sourceAt i = some src →
      rollbackApp store policy principal ns name project id (some i) =
        Except.ok
          { a with operation := some (syncShapedOp
              ((entry.revisionAt i).getD "") [] (some src) []) }) := by
  refine ⟨?_, ?_, ?_⟩
  · intro hne
    unfold rollbackApp
    rw [hauth]
    dsimp only
    rw [hentry]
    dsimp only
    rw [hne]
    rfl
  · intro heq sourceIndex
    unfold rollbackApp
    rw [hauth]
    dsimp only
    rw [hentry]
    dsimp only
    rw [heq]
    rfl
  · intro hne i src hsrc
    unfold rollbackApp
    rw [hauth]
    dsimp only
    rw [hentry]
    dsimp only
    have hcond : ¬ ((entry.hasMultipleSources == a.spec.hasMultipleSources)
        = true) := by
      rw [hne]; exact Bool.false_ne_true
    rw [if_neg hcond]
    rw [hsrc]

/-- A fully permissive policy row for principal `admin`. -/
def pAll : PolicyRule :=
  { subject := "admin", resource := "*", action := "*", object := "*"
    effect := Effect.allow }

/-- Witness for C6 at the concrete input of `TestRollbackApp`: rolling
`test-app` back to history id 1 (same single-source cardinality) succeeds
and the pending Operation is Sync-shaped with revision `abc` and the history
entry's source. -/
theorem rollbackApp_cardinality_witness :
    rollbackApp [sampleApp] [pAll] "admin" "argocd" "test-app" none 1 none =
      Except.ok
        { sampleApp with operation := some (syncShapedOp "abc" []
            (some sampleSource) []) } := by
  have h := (rollbackApp_cardinality [sampleApp] [pAll] "admin" "argocd"
    "test-app" none 1 sampleApp
    { id := 1, revision := "abc", revisions := []
      source := some sampleSource, sources := [] }
    (by rfl) (by rfl)).2.1 (by decide) none
  exact h

/-- Modelled from the spec: the revision-override fields of an
`ApplicationSyncRequest`: the legacy aggregate `revision`, and the paired
`sourcePositions` / `revisions` lists for multi-source Applications. -/
structure ApplicationSyncRequest where
  revision : Option String
  sourcePositions : List Int
  revisions : List String
deriving DecidableEq, Repr

/-- Modelled from the spec and `TestGetAmbiguousRevision_MultiSource` /
`TestGetAmbiguousRevision_SingleSource`: the `getAmbiguousRevision` helper
(missing `application.go`): for a multi-source Application, the requested
revision for source index `i` is the one paired with source position
`i + 1` — positions are one-based — and the empty string when no position
matches; for a single-source Application, the request's aggregate revision
field. -/
def getAmbiguousRevision (a : Application) (req : ApplicationSyncRequest)
    (sourceIndex : Nat) : String :=
  if a.spec.hasMultipleSources then
    match (req.sourcePositions.zip req.revisions).find?
        (fun pr => pr.1 == Int.ofNat (sourceIndex + 1)) with
    | some pr => pr.2
    | none => ""
  else
    req.revision.getD ""

/-- The all-empty source, used only as an unreachable `getD` default. -/
def emptySource : ApplicationSource :=
  { repoURL := "", path := "", chart := "", targetRevision := "" }

/-- Modelled from the spec: resolution of the requested (position, revision)
override pairs of a multi-source sync, in request order: each one-based
position must fall within the source list, else the whole call fails with
the out-of-range error; every valid pair contributes one resolved revision
and one display revision, via the external resolver. -/
def resolvePositions (resolve : ApplicationSource → String → String × String)
    (sources : List ApplicationSource) :
    List (Int × String) → Except APIError (List String × List String)
  | [] => Except.ok ([], [])
  | (pos, rev) :: rest =>
    if pos < 1 then
      Except.error (APIError.invalidArgument "source position is out of range")
    else
      match sources[(pos - 1).toNat]? with
      | none =>
        Except.error
          (APIError.invalidArgument "source position is out of range")
      | some src =>
        match resolvePositions resolve sources rest with
        | Except.error e => Except.error e
        | Except.ok (rs, ds) =>
          Except.ok ((resolve src rev).1 :: rs, (resolve src rev).2 :: ds)

/-- Modelled from the spec: `resolveSourceRevisions` (missing
`application.go`), with the external rendering backend's
`ResolveRevision` passed in as `resolve`: a multi-source Application
resolves the override pairs and populates only the source-specific
channels, leaving the aggregate revision and display-revision empty; a
single-source Application resolves the aggregate request revision (the
spec's target revision when none is requested) and leaves the
source-specific channels empty. -/
def resolveSourceRevisions
    (resolve : ApplicationSource → String → String × String)
    (a : Application) (req : ApplicationSyncRequest) :
    Except APIError (String × String × List String × List String) :=
  if a.spec.hasMultipleSources then
    match resolvePositions resolve a.spec.sources
        (req.sourcePositions.zip req.revisions) with
    | Except.error e => Except.error e
    | Except.ok (rs, ds) => Except.ok ("", "", rs, ds)
  else
    match a.spec.source with
    | none =>
      Except.error (APIError.invalidArgument "application has no source")
    | some src =>
      Except.ok ((resolve src (req.revision.getD src.targetRevision)).1,
        (resolve src (req.revision.getD src.targetRevision)).2, [], [])

/-- A listing fixture Application with the given name and project in the
control namespace. -/
def mkListApp (name project : String) : Application :=
  { name := name, nspace := "argocd"
    spec := { source := some sampleSource, sources := [], project := project }
    history := [], operation := none }

/-- The query with no filters. -/
def emptyQuery : ApplicationQuery :=
  { name := none, project := [], projects := [] }

/-- The query of `TestListAppWithProjects`'s both-fields case: `project`
set to `test-project1` and `projects` set to `test-project2`. -/
def bothFieldsQuery : ApplicationQuery :=
  { name := none, project := ["test-project1"], projects := ["test-project2"] }

/-- C8: a listing is sorted by name; it is independent of the order in which
the store holds the Applications (given the store invariant that
(name, namespace) identities are distinct); and re-running it against an
unchanged store yields identical output. -/
theorem listApps_sorted_orderIndependent_deterministic :
    (∀ (store : List Application) (policy : List PolicyRule)
       (principal controlNS : String) (enabledNS : List String)
       (q : ApplicationQuery),
       (listApps store policy principal controlNS enabledNS q).Pairwise
         (fun a b => a.name ≤ b.name)) ∧
    (∀ (store₁ store₂ : List Application) (policy : List PolicyRule)
       (principal controlNS : String) (enabledNS : List String)
       (q : ApplicationQuery),
       store₁.Perm store₂ → (store₁.map appKey).Nodup →
       listApps store₁ policy principal controlNS enabledNS q =
         listApps store₂ policy principal controlNS enabledNS q) ∧
    (∀ (store : List Application) (policy : List PolicyRule)
       (principal controlNS : String) (enabledNS : List String)
       (q : ApplicationQuery),
       listApps store policy principal controlNS enabledNS q =
         listApps store policy principal controlNS enabledNS q) := by
  refine ⟨?_, ?_, fun _ _ _ _ _ _ => rfl⟩
  · intro store policy principal controlNS enabledNS q
    have hs := List.sorted_insertionSort appLe
      (store.filter (listFilter policy principal controlNS enabledNS q))
    refine hs.imp ?_
    intro a b hab
    rcases hab with h | ⟨h, _⟩
    · exact le_of_lt h
    · exact le_of_eq h
  · intro store₁ store₂ policy principal controlNS enabledNS q hperm hnd
    apply sorted_perm_nodupKeys_eq
    · exact (List.perm_insertionSort appLe _).trans
        ((hperm.filter _).trans (List.perm_insertionSort appLe _).symm)
    · exact List.sorted_insertionSort appLe _
    · exact List.sorted_insertionSort appLe _
    · have hsub : ((store₁.filter
          (listFilter policy principal controlNS enabledNS q)).map
            appKey).Sublist (store₁.map appKey) :=
        (List.filter_sublist _).map appKey
      have hnd2 := hnd.sublist hsub
      exact ((List.perm_insertionSort appLe _).map appKey).symm.nodup hnd2

/-- Witness for C8: two orderings of the three-app store of `TestListApps`
produce the same listing. -/
theorem listApps_orderIndependent_witness :
    listApps [mkListApp "bcd" "default", mkListApp "abc" "default",
        mkListApp "def" "default"] [pAll] "admin" "argocd" [] emptyQuery =
      listApps [mkListApp "abc" "default", mkListApp "bcd" "default",
        mkListApp "def" "default"] [pAll] "admin" "argocd" [] emptyQuery :=
  listApps_sorted_orderIndependent_deterministic.2.1
    [mkListApp "bcd" "default", mkListApp "abc" "default",
      mkListApp "def" "default"]
    [mkListApp "abc" "default", mkListApp "bcd" "default",
      mkListApp "def" "default"]
    [pAll] "admin" "argocd" [] emptyQuery (by decide) (by decide)

/-- Counterexample to C7: at `TestListAppWithProjects`'s both-fields query,
the listing returns the Application of `test-project1` — the project named
by the `project` field — although `test-project1` is not in the `projects`
field's set, so the filter does not prefer the `projects` field. -/
theorem listApps_projects_preference_counterexample :
    (listApps [mkListApp "App1" "test-project1",
        mkListApp "App2" "test-project2", mkListApp "App3" "test-project3"]
        [pAll] "admin" "argocd" [] bothFieldsQuery).map
        (fun a => a.spec.project) = ["test-project1"] ∧
    ¬ ("test-project1" ∈ ["test-project2"]) := by
  constructor
  · decide
  · decide

/-- C7 as amended: when the `project` field is supplied, the filter uses it
and ignores the `projects` field: the project set in force is exactly the
`project` field's, and every returned Application's project belongs to it. -/
theorem listApps_project_field_precedence :
    (∀ q : ApplicationQuery, q.project ≠ [] →
       getProjectsFromApplicationQuery q = q.project) ∧
    (∀ (store : List Application) (policy : List PolicyRule)
       (principal controlNS : String) (enabledNS : List String)
       (q : ApplicationQuery) (a : Application),
       q.project ≠ [] →
       a ∈ listApps store policy principal controlNS enabledNS q →
       a.spec.project ∈ q.project) := by
  have hpref : ∀ q : ApplicationQuery, q.project ≠ [] →
      getProjectsFromApplicationQuery q = q.project := by
    intro q hq
    unfold getProjectsFromApplicationQuery
    rw [if_neg]
    simpa using hq
  refine ⟨hpref, ?_⟩
  intro store policy principal controlNS enabledNS q a hq hmem
  have hmem2 : a ∈ store.filter
      (listFilter policy principal controlNS enabledNS q) :=
    (List.perm_insertionSort appLe _).subset hmem
  have hflt := List.of_mem_filter hmem2
  unfold listFilter at hflt
  simp only [Bool.and_eq_true] at hflt
  have hproj := hflt.1.2
  rw [hpref q hq] at hproj
  rcases Bool.or_eq_true _ _ |>.mp hproj with h | h
  · exact absurd (List.isEmpty_iff.mp h) hq
  · simpa using h

/-- Witness for C7's amended theorem at the tests' fixtures: the one listed
Application's project belongs to the `project` field's set. -/
theorem listApps_project_field_precedence_witness :
    (mkListApp "App1" "test-project1").spec.project ∈ bothFieldsQuery.project :=
  listApps_project_field_precedence.2
    [mkListApp "App1" "test-project1", mkListApp "App2" "test-project2",
      mkListApp "App3" "test-project3"]
    [pAll] "admin" "argocd" [] bothFieldsQuery
    (mkListApp "App1" "test-project1") (by decide) (by decide)

/-- Resolving a list of valid (one-based position, revision) override pairs
yields, in request order, exactly the per-pair resolved revisions and
display revisions. -/
theorem resolvePositions_maps
    (resolve : ApplicationSource → String → String × String)
    (sources : List ApplicationSource) :
    ∀ pairs : List (Int × String),
      (∀ pr ∈ pairs, 1 ≤ pr.1 ∧
        ∃ src, sources[(pr.1 - 1).toNat]? = some src) →
      resolvePositions resolve sources pairs =
        Except.ok
          (pairs.map (fun pr =>
            (resolve ((sources[(pr.1 - 1).toNat]?).getD emptySource) pr.2).1),
           pairs.map (fun pr =>
            (resolve ((sources[(pr.1 - 1).toNat]?).getD emptySource) pr.2).2)) := by
  intro pairs
  induction pairs with
  | nil => intro _; rfl
  | cons pr rest ih =>
    intro hall
    obtain ⟨pos, rev⟩ := pr
    obtain ⟨h1, src, hsrc⟩ := hall (pos, rev) (List.mem_cons_self _ rest)
    have hrest := ih fun p hp => hall p (List.mem_cons_of_mem _ hp)
    unfold resolvePositions
    rw [if_neg (not_lt.mpr h1)]
    rw [hsrc]
    dsimp only
    rw [hrest]
    have hidx : (pos - 1).toNat = pos.toNat - 1 := by omega
    rw [hidx] at hsrc
    simp [hsrc]

/-- C9 as amended (source positions are one-based, not zero-based): for a
multi-source Application, resolution populates only the source-specific
revision and display-revision channels and leaves the aggregate channels
empty; a single-source Application populates only the aggregate channels;
a request with no overrides resolves none and returns empty sets on both
channels; and a valid override list resolves an order-preserving subset of
the sources selected by the one-based positions. -/
theorem resolveSourceRevisions_channels :
    (∀ (resolve : ApplicationSource → String → String × String)
       (a : Application) (req : ApplicationSyncRequest)
       (out : String × String × List String × List String),
       a.spec.hasMultipleSources = true →
       resolveSourceRevisions resolve a req = Except.ok out →
       out.1 = "" ∧ out.2.1 = "") ∧
    (∀ (resolve : ApplicationSource → String → String × String)
       (a : Application) (req : ApplicationSyncRequest)
       (src : ApplicationSource),
       a.spec.hasMultipleSources = false → a.spec.source = some src →
       resolveSourceRevisions resolve a req =
         Except.ok ((resolve src (req.revision.getD src.targetRevision)).1,
           (resolve src (req.revision.getD src.targetRevision)).2, [], [])) ∧
    (∀ (resolve : ApplicationSource → String → String × String)
       (a : Application) (req : ApplicationSyncRequest),
       a.spec.hasMultipleSources = true → req.sourcePositions = [] →
       resolveSourceRevisions resolve a req = Except.ok ("", "", [], [])) ∧
    (∀ (resolve : ApplicationSource → String → String × String)
       (sources : List ApplicationSource) (pairs : List (Int × String)),
       (∀ pr ∈ pairs, 1 ≤ pr.1 ∧
         ∃ src, sources[(pr.1 - 1).toNat]? = some src) →
       resolvePositions resolve sources pairs =
         Except.ok
           (pairs.map (fun pr =>
             (resolve ((sources[(pr.1 - 1).toNat]?).getD emptySource)
               pr.2).1),
            pairs.map (fun pr =>
             (resolve ((sources[(pr.1 - 1).toNat]?).getD emptySource)
               pr.2).2))) := by
  refine ⟨?_, ?_, ?_, resolvePositions_maps⟩
  · intro resolve a req out h1 h2
    unfold resolveSourceRevisions at h2
    rw [if_pos h1] at h2
    cases hres : resolvePositions resolve a.spec.sources
        (req.sourcePositions.zip req.revisions) with
    | error e => rw [hres] at h2; cases h2
    | ok pair =>
      obtain ⟨rs, ds⟩ := pair
      rw [hres] at h2
      dsimp only at h2
      cases h2
      exact ⟨rfl, rfl⟩
  · intro resolve a req src h1 h2
    unfold resolveSourceRevisions
    rw [if_neg (by rw [h1]; exact Bool.false_ne_true)]
    rw [h2]
  · intro resolve a req h1 h2
    unfold resolveSourceRevisions
    rw [if_pos h1, h2]
    rfl

/-- A repository source whose target revision is `revision1`. -/
def srcA : ApplicationSource :=
  { repoURL := "https://github.com/example/repo.git", path := "", chart := ""
    targetRevision := "revision1" }

/-- A repository source whose target revision is `revision2`. -/
def srcB : ApplicationSource :=
  { repoURL := "https://github.com/example/repo.git", path := "", chart := ""
    targetRevision := "revision2" }

/-- A two-source Application, as in `TestGetAmbiguousRevision_MultiSource`. -/
def multiTwoApp : Application :=
  { name := "test-multi", nspace := "argocd"
    spec := { source := none, sources := [srcA, srcB], project := "default" }
    history := [], operation := none }

/-- A multi-source Application with a single entry in its `sources` list, as
in `TestServer_ResolveSourceRevisions_MultiSource`. -/
def multiOneApp : Application :=
  { name := "test-one", nspace := "argocd"
    spec := { source := none, sources := [srcA], project := "default" }
    history := [], operation := none }

/-- The sync request with positions `[1, 2]` and revisions
`[rev1, rev2]` of `TestGetAmbiguousRevision_MultiSource`. -/
def posReq12 : ApplicationSyncRequest :=
  { revision := none, sourcePositions := [1, 2]
    revisions := ["rev1", "rev2"] }

/-- The sync request with the single position `1` and revision `HEAD` of
`TestServer_ResolveSourceRevisions_MultiSource`. -/
def posReq1 : ApplicationSyncRequest :=
  { revision := none, sourcePositions := [1], revisions := ["HEAD"] }

/-- A sync request using position `0`, which a zero-based scheme would
accept as the first source. -/
def posReq0 : ApplicationSyncRequest :=
  { revision := none, sourcePositions := [0], revisions := ["HEAD"] }

/-- A stand-in for the external revision resolver. -/
def fakeResolve : ApplicationSource → String → String × String :=
  fun _ amb => ("0123456789", amb ++ " (0123456789)")

/-- Counterexample to C9's zero-based positions: with positions `[1, 2]`,
source index 0 receives `rev1` and index 1 receives `rev2` — position `i+1`
denotes source index `i` — and for a one-entry source list, position `1`
resolves successfully while position `0` is rejected as out of range, so
positions are one-based, not zero-based. -/
theorem sourcePositions_zeroBased_counterexample :
    getAmbiguousRevision multiTwoApp posReq12 0 = "rev1" ∧
    getAmbiguousRevision multiTwoApp posReq12 1 = "rev2" ∧
    resolveSourceRevisions fakeResolve multiOneApp posReq1 =
      Except.ok ("", "", ["0123456789"], ["HEAD (0123456789)"]) ∧
    resolveSourceRevisions fakeResolve multiOneApp posReq0 =
      Except.error
        (APIError.invalidArgument "source position is out of range") :=
  ⟨rfl, rfl, rfl, rfl⟩

/-- Witness for C9's amended theorem: the single-source component applied at
the concrete fixture of `TestServer_ResolveSourceRevisions_SingleSource`. -/
theorem resolveSourceRevisions_channels_witness :
    resolveSourceRevisions fakeResolve sampleApp posReq1 =
      Except.ok
        ((fakeResolve sampleSource
            (posReq1.revision.getD sampleSource.targetRevision)).1,
         (fakeResolve sampleSource
            (posReq1.revision.getD sampleSource.targetRevision)).2, [], []) :=
  resolveSourceRevisions_channels.2.1 fakeResolve sampleApp posReq1
    sampleSource rfl rfl

/-- An empty-project variant of the sample Application, as submitted by
`TestUpdateApp` / `TestUpdateAppSpec`. -/
def sampleAppNoProj : Application := setProject sampleApp ""

/-- Witness for C10 at the tests' concrete input: updating `test-app` with
an empty project stores and returns project `default`, through both `Update`
and `UpdateSpec`. -/
theorem update_normalizes_empty_project_witness :
    ((setProject sampleAppNoProj "default").spec.project = "default" ∧
     getApp (putApp [sampleApp] (setProject sampleAppNoProj "default"))
        sampleAppNoProj.nspace sampleAppNoProj.name =
      some (setProject sampleAppNoProj "default")) ∧
    ((setProject sampleAppNoProj "default").spec.project = "default" ∧
     ∃ a', getApp (putApp [sampleApp] (setProject sampleAppNoProj "default"))
        "argocd" "test-app" = some a' ∧ a'.spec.project = "default") := by
  constructor
  · exact update_normalizes_empty_project.1 [sampleApp]
      [{ subject := "admin", resource := "*", action := "*", object := "*"
         effect := Effect.allow }]
      "admin" none sampleAppNoProj (setProject sampleAppNoProj "default")
      (putApp [sampleApp] (setProject sampleAppNoProj "default"))
      (by decide) (by rfl)
  · have h := update_normalizes_empty_project.2 [sampleApp]
      [{ subject := "admin", resource := "*", action := "*", object := "*"
         effect := Effect.allow }]
      "admin" none "argocd" "test-app" sampleAppNoProj.spec
      (setProject sampleAppNoProj "default").spec
      (putApp [sampleApp] (setProject sampleAppNoProj "default"))
      (by decide) (by rfl)
    exact ⟨h.1, h.2⟩

end ArgoCD
